import Mathlib

/-!
Verification of the RPWA client-side content cache.

This file gives a shallow embedding of the core subsystem of the repository:
the cache store (dedup / sort / quota-aware eviction), the pending-update
buffer, the offline sync queue, the rate limiter, and the two fetch clients
(the legacy retrying client `fetchSubredditPosts` from `src/app.js` and the
timeout client `fetchSubredditPostsWithTimeout` from the evolved variant).

Conventions of the embedding:
* JavaScript arrays become `List`; `Set` membership becomes list membership.
* `Array.prototype.sort` with a numeric comparator is stable (ECMAScript
  2019), and is modelled by `List.mergeSort`, which is stable in the same
  sense.
* `Math.ceil(n * 0.2)` on an array length `n` equals `⌈n / 5⌉` exactly for
  every realistic length (the IEEE-754 product `n * 0.2` never rounds across
  an integer for `n / 5 ≤ 2 ^ 52`), so it is modelled as `(n + 4) / 5`.
* Timestamps are naturals (milliseconds), `created_utc` is an integer
  (epoch seconds), storage-usage percentages are rationals.
* Network responses, jitter, and the storage-estimation collaborator are
  oracles passed in as parameters.
-/

namespace RPWA

/-- One cached feed item, the shape produced by `stripPostData`. -/
structure Post where
  id : String
  title : String
  author : String
  subreddit : String
  created_utc : Int
  ups : Nat
  num_comments : Nat
  deriving DecidableEq, Repr

/-- Comparator `(a, b) => b.created_utc - a.created_utc` (newest first). -/
def leNewest (a b : Post) : Bool := decide (b.created_utc ≤ a.created_utc)

/-- Comparator `(a, b) => a.created_utc - b.created_utc` (oldest first). -/
def leOldest (a b : Post) : Bool := decide (a.created_utc ≤ b.created_utc)

/-- The body of `removeDuplicatePosts`: a left-to-right filter that keeps a
post exactly when its id has not been seen yet (`seen` plays the role of the
JavaScript `Set`). -/
def dedupSeen (seen : List String) : List Post → List Post
  | [] => []
  | p :: ps =>
    if p.id ∈ seen then dedupSeen seen ps
    else p :: dedupSeen (p.id :: seen) ps

/-- `removeDuplicatePosts` from the source: dedup by id, first-seen wins. -/
def removeDuplicatePosts (posts : List Post) : List Post := dedupSeen [] posts

/-- `.sort((a, b) => b.created_utc - a.created_utc)`: stable sort, newest
first. -/
def sortByNewest (posts : List Post) : List Post := posts.mergeSort leNewest

/-- The merge step of `applyPendingUpdates`: concatenate existing before
incoming, dedup by id (first seen wins), then sort newest-first. -/
def mergePosts (existing incoming : List Post) : List Post :=
  sortByNewest (removeDuplicatePosts (existing ++ incoming))

/-- Two posts tie under the newest-first comparator exactly when their
`created_utc` agree. -/
def tieNewest (x y : Post) : Bool := leNewest x y && leNewest y x

/-- The three persisted collections owned by the cache store. -/
structure CacheState where
  cachedPosts : List Post
  popularPosts : List Post
  bookmarkedPosts : List Post
  deriving DecidableEq, Repr

/-- The `allPosts` value computed inside `cleanupOldPosts`: the concatenation
of the feed and popular collections with every bookmarked id filtered out. -/
def evictionEligible (s : CacheState) : List Post :=
  (s.cachedPosts ++ s.popularPosts).filter
    (fun p => decide (p.id ∉ s.bookmarkedPosts.map Post.id))

/-- `cleanupOldPosts`: if storage usage is below 80 percent, do nothing;
otherwise sort the eviction-eligible posts ascending by `created_utc`, take
the oldest `Math.ceil(length * 0.2)` of them, and drop every post carrying
one of those ids from both the feed and the popular collections.  The
storage-usage percentage comes from an external storage-estimation
collaborator (`getStorageUsagePercent`) and is passed in as a parameter. -/
def cleanupOldPosts (s : CacheState) (usagePercent : ℚ) : CacheState :=
  if usagePercent < 80 then s
  else
    let sortedByAge := (evictionEligible s).mergeSort leOldest
    let removeCount := (sortedByAge.length + 4) / 5
    let removeIds := (sortedByAge.take removeCount).map Post.id
    { s with
      cachedPosts := s.cachedPosts.filter (fun p => decide (p.id ∉ removeIds)),
      popularPosts := s.popularPosts.filter (fun p => decide (p.id ∉ removeIds)) }

/-- Builds a post whose only distinguishing fields are its id and creation
time; used for concrete test states. -/
def mkPost (i : String) (c : Int) : Post := ⟨i, "t", "u", "r", c, 0, 0⟩

/-- A state in which one id ("a") lives in both the feed and the popular
collection.  The id-union of the two collections has six elements, so the
claim predicts that an eviction run removes `ceil(0.2 * 6) = 2` distinct
ids (the two oldest: "a" and "b"). -/
def overlapState : CacheState :=
  CacheState.mk
    [mkPost "a" 1, mkPost "b" 2, mkPost "c" 3, mkPost "d" 4,
      mkPost "e" 5, mkPost "f" 6]
    [mkPost "a" 1] []

/-- The volatile staging buffer `pendingUpdates`: per feed, a list of staged
posts and a count. -/
structure PendingUpdates where
  myPosts : List Post
  myCount : Nat
  popularPosts : List Post
  popularCount : Nat
  deriving DecidableEq, Repr

/-- The empty buffer the source resets `pendingUpdates` to. -/
def emptyPendingUpdates : PendingUpdates := ⟨[], 0, [], 0⟩

/-- `applyPendingUpdates`: for each feed with a non-empty staged list, merge
the staged posts into the corresponding collection (dedup by id with the
existing list first, then sort newest-first), then run `cleanupOldPosts`;
finally reset the whole pending buffer.  `usage` is the external
storage-estimation collaborator (`getStorageUsagePercent`), evaluated on the
state current at each cleanup call. -/
def applyPendingUpdates (usage : CacheState → ℚ) (s : CacheState)
    (pu : PendingUpdates) : CacheState × PendingUpdates :=
  let s1 :=
    if 0 < pu.myPosts.length then
      let merged := { s with cachedPosts := mergePosts s.cachedPosts pu.myPosts }
      cleanupOldPosts merged (usage merged)
    else s
  let s2 :=
    if 0 < pu.popularPosts.length then
      let merged := { s1 with popularPosts := mergePosts s1.popularPosts pu.popularPosts }
      cleanupOldPosts merged (usage merged)
    else s1
  (s2, emptyPendingUpdates)

/-- Modelled from the spec: the source `applyPendingUpdates` returns no
value, while the spec contract is `apply(feed) -> mergedCount`; the returned
count is modelled as the total number of staged posts consumed by the call. -/
def applyMergedCount (pu : PendingUpdates) : Nat :=
  pu.myPosts.length + pu.popularPosts.length

/-- `rateLimitState`: remaining quota, window reset time (ms), time of the
last departed request (ms), and a monotonic request counter.  The remaining
quota is an integer because authoritative headers overwrite it with a parsed
value. -/
structure RateLimitState where
  remainingRequests : Int
  resetTime : Nat
  lastRequestTime : Nat
  requestCount : Nat
  deriving DecidableEq, Repr

/-- `canMakeRequest` evaluated at clock `now`: first the window rollover
(crossing `resetTime` refills the quota to 10, advances the window by one
minute and clears the counter, mutating the state), then the eligibility
check: at least 6000 ms since the last request and positive remaining
quota.  Returns the possibly-rolled-over state together with the verdict. -/
def canMakeRequest (now : Nat) (s : RateLimitState) : RateLimitState × Bool :=
  let s1 :=
    if s.resetTime ≤ now then
      { s with remainingRequests := 10, resetTime := now + 60000, requestCount := 0 }
    else s
  (s1, decide (6000 ≤ now - s1.lastRequestTime) && decide (0 < s1.remainingRequests))

/-- The departure bookkeeping performed right after a response arrives:
`lastRequestTime := now`, quota decremented but clamped at 0
(`Math.max(0, r - 1)`), request counter incremented. -/
def markDeparture (now : Nat) (s : RateLimitState) : RateLimitState :=
  { s with
    lastRequestTime := now,
    remainingRequests := max 0 (s.remainingRequests - 1),
    requestCount := s.requestCount + 1 }

/-- `updateRateLimitFromHeaders`: an `X-Ratelimit-Remaining` header
overrides the remaining quota, an `X-Ratelimit-Reset` header (epoch
seconds) overrides the reset time after conversion to milliseconds;
absent headers leave the corresponding field untouched. -/
def updateRateLimitFromHeaders (remainingHdr : Option Int) (resetHdr : Option Nat)
    (s : RateLimitState) : RateLimitState :=
  { s with
    remainingRequests := remainingHdr.getD s.remainingRequests,
    resetTime := (resetHdr.map (· * 1000)).getD s.resetTime }

/-- A serial trace of fetches admitted by the rate limiter, recording the
departure-bookkeeping times.  Each step: `canMakeRequest` returns true at
admission time `t`, the response arrives at `t' ≥ t`, `markDeparture t'`
runs, and any quota headers present on the response are applied.  The
serial (single-flight) execution of the sync queue means the next admission
is checked against the updated state. -/
inductive AdmittedTrace : RateLimitState → List Nat → Prop
  | nil (s : RateLimitState) : AdmittedTrace s []
  | cons (s : RateLimitState) (t t' : Nat) (remainingHdr : Option Int)
      (resetHdr : Option Nat) (ts : List Nat)
      (hadm : (canMakeRequest t s).2 = true)
      (ht : t ≤ t')
      (hrest : AdmittedTrace
        (updateRateLimitFromHeaders remainingHdr resetHdr
          (markDeparture t' (canMakeRequest t s).1)) ts) :
      AdmittedTrace s (t' :: ts)

/-- The observable outcome of one network attempt: a response with a status
and optional quota headers, a network-level failure (`fetch` rejects), or
the abort fired by the 15-second deadline. -/
inductive FetchOutcome where
  | response (status : Nat) (remainingHdr : Option Int) (resetHdr : Option Nat)
  | networkError
  | timeoutAbort
  deriving DecidableEq, Repr

/-- Classification of `fetchSubredditPostsWithTimeout`'s exit. -/
inductive FetchTimeoutResult where
  | ok
  | rateLimited
  | httpError (status : Nat)
  | timeout
  | networkFailure
  deriving DecidableEq, Repr

/-- `fetchSubredditPostsWithTimeout`: when `fetch` resolves with a response
(arriving at clock `now`), the departure bookkeeping runs, then the quota
headers are applied, then the status is classified (429, then `!response.ok`,
then success).  When `fetch` rejects — network failure or the abort of the
timeout — control jumps to the catch block and the rate-limit state is never
touched. -/
def fetchSubredditPostsWithTimeout (s : RateLimitState) (now : Nat)
    (o : FetchOutcome) : RateLimitState × FetchTimeoutResult :=
  match o with
  | .response st rh sh =>
    let s2 := updateRateLimitFromHeaders rh sh (markDeparture now s)
    if st = 429 then (s2, .rateLimited)
    else if 200 ≤ st ∧ st < 300 then (s2, .ok)
    else (s2, .httpError st)
  | .networkError => (s, .networkFailure)
  | .timeoutAbort => (s, .timeout)

/-- A fresh full-quota rate-limit state. -/
def rl0 : RateLimitState := RateLimitState.mk 10 60000 0 0

/-- Classification of the legacy retrying client's exit. -/
inductive FetchRetryResult where
  | ok
  | rateLimitExceeded
  | httpError (status : Nat)
  deriving DecidableEq, Repr

/-- The legacy `fetchSubredditPosts` from `src/app.js`: on HTTP 429 with
`retryCount < MAX_RETRIES = 3` it waits
`min(INITIAL_BACKOFF * 2 ^ retryCount + jitter, MAX_BACKOFF)` (1000, 2 ^ k,
jitter in [0, 1000) from `Math.random() * 1000`, cap 30000) and calls itself
on the same subreddit with `retryCount + 1`; once `retryCount` reaches 3 it
raises the terminal rate-limit error.  `resp` gives the HTTP status of each
attempt and `jit` the sampled jitter; the returned list collects the backoff
delays actually waited. -/
def fetchSubredditPosts (sub : String) (resp : Nat → Nat) (jit : Nat → ℚ)
    (retryCount : Nat) : List ℚ × FetchRetryResult :=
  let st := resp retryCount
  if st = 429 then
    if h : retryCount < 3 then
      let d := min (1000 * 2 ^ retryCount + jit retryCount) 30000
      let r := fetchSubredditPosts sub resp jit (retryCount + 1)
      (d :: r.1, r.2)
    else ([], FetchRetryResult.rateLimitExceeded)
  else if 200 ≤ st ∧ st < 300 then ([], FetchRetryResult.ok)
  else ([], FetchRetryResult.httpError st)
termination_by 3 - retryCount
decreasing_by omega

/-- Job statuses of the offline sync queue.  `failedMaxRetries` is the
terminal failure status the source spells `'failed_max_retries'`. -/
inductive JobStatus where
  | pending
  | processing
  | completed
  | failed
  | failedMaxRetries
  deriving DecidableEq, Repr

/-- One sync-queue job. -/
structure SyncJob where
  id : String
  jobType : String
  subreddit : Option String
  timestamp : Nat
  retries : Nat
  status : JobStatus
  deriving DecidableEq, Repr

/-- The job object built by `queueSyncJob`: zero retries, status pending. -/
def queueSyncJob (jobType : String) (subreddit : Option String) (now : Nat) : SyncJob :=
  { id := jobType ++ "_" ++ subreddit.getD "all" ++ "_" ++ toString now
    jobType := jobType
    subreddit := subreddit
    timestamp := now
    retries := 0
    status := JobStatus.pending }

/-- The per-job outcome handling inside `processSyncQueue`'s loop: success
marks the job completed; an exception increments `retries` and marks it
`failed`, or `failed_max_retries` once the incremented counter reaches 3. -/
def processJob (j : SyncJob) (ok : Bool) : SyncJob :=
  if ok then { j with status := JobStatus.completed }
  else
    { j with
      retries := j.retries + 1
      status := if 3 ≤ j.retries + 1 then JobStatus.failedMaxRetries else JobStatus.failed }

/-- The drain-eligibility filter of `processSyncQueue`: status pending or
failed. -/
def eligibleJob (j : SyncJob) : Bool :=
  decide (j.status = JobStatus.pending) || decide (j.status = JobStatus.failed)

/-- One drain pass over a job that fails every time it is attempted: the
drain attempts it only while it is eligible (pending or failed); otherwise
the pass leaves it alone. -/
def failedAttempt (j : SyncJob) : SyncJob :=
  if eligibleJob j then processJob j false else j

/-- Placeholder job used as the default value of positional lookups. -/
def defaultJob : SyncJob := SyncJob.mk "" "" none 0 0 JobStatus.pending

/-- The snapshot `processSyncQueue` takes when a drain starts:
`syncQueue.filter(j => j.status === 'pending' || j.status === 'failed')`,
represented by the positions of the eligible jobs in the queue at that
moment. -/
def snapshotIdx (q : List SyncJob) : List Nat :=
  (List.range q.length).filter (fun k => eligibleJob (q.getD k defaultJob))

/-- Processing of one snapshot entry: the job object at position `k` is
mutated in place according to the attempt outcome. -/
def drainStep (outcomes : Nat → Bool) (c : List SyncJob) (k : Nat) : List SyncJob :=
  c.set k (processJob (c.getD k defaultJob) (outcomes k))

/-- A full `processSyncQueue` pass: the eligible snapshot is fixed up front;
each snapshot entry is processed in order, and between steps `queueSyncJob`
may append new jobs (`enq k` lists the jobs enqueued while snapshot entry
`k` was being processed — `queueSyncJob` only appends during a pass because
`isProcessingQueue` blocks reentry); at the end the completed jobs are
purged from the persisted queue. -/
def processSyncQueuePass (q : List SyncJob) (outcomes : Nat → Bool)
    (enq : Nat → List SyncJob) : List SyncJob :=
  ((snapshotIdx q).foldl (fun c k => drainStep outcomes c k ++ enq k) q).filter
    (fun j => decide (j.status ≠ JobStatus.completed))

theorem leNewest_trans : ∀ a b c, leNewest a b → leNewest b c → leNewest a c := by
  intro a b c hab hbc
  simp only [leNewest, decide_eq_true_eq] at *
  exact le_trans hbc hab

theorem leNewest_total : ∀ a b, leNewest a b || leNewest b a := by
  intro a b
  simp only [leNewest, Bool.or_eq_true, decide_eq_true_eq]
  exact le_total b.created_utc a.created_utc

theorem leOldest_trans : ∀ a b c, leOldest a b → leOldest b c → leOldest a c := by
  intro a b c hab hbc
  simp only [leOldest, decide_eq_true_eq] at *
  exact le_trans hab hbc

theorem leOldest_total : ∀ a b, leOldest a b || leOldest b a := by
  intro a b
  simp only [leOldest, Bool.or_eq_true, decide_eq_true_eq]
  exact le_total a.created_utc b.created_utc

theorem dedupSeen_congr {s₁ s₂ : List String}
    (h : ∀ x, x ∈ s₁ ↔ x ∈ s₂) : ∀ l, dedupSeen s₁ l = dedupSeen s₂ l := by
  intro l
  induction l generalizing s₁ s₂ with
  | nil => rfl
  | cons p ps ih =>
    simp only [dedupSeen]
    by_cases hp : p.id ∈ s₁
    · rw [if_pos hp, if_pos ((h p.id).mp hp)]
      exact ih h
    · rw [if_neg hp, if_neg (fun hc => hp ((h p.id).mpr hc))]
      refine congrArg (p :: ·) (ih ?_)
      intro x
      simp only [List.mem_cons]
      exact or_congr Iff.rfl (h x)

theorem dedupSeen_append (s : List String) (l₁ l₂ : List Post) :
    dedupSeen s (l₁ ++ l₂) =
      dedupSeen s l₁ ++ dedupSeen (l₁.map Post.id ++ s) l₂ := by
  induction l₁ generalizing s with
  | nil => simp [dedupSeen]
  | cons p ps ih =>
    simp only [List.cons_append, dedupSeen, List.map_cons, List.append_eq]
    by_cases hp : p.id ∈ s
    · rw [if_pos hp, if_pos hp, ih]
      refine congrArg (dedupSeen s ps ++ ·) (dedupSeen_congr ?_ l₂)
      intro x
      simp only [List.mem_append, List.mem_cons]
      constructor
      · tauto
      · intro h
        rcases h with h | h | h
        · exact Or.inr (h ▸ hp)
        · exact Or.inl h
        · exact Or.inr h
    · rw [if_neg hp, if_neg hp, ih, List.cons_append]
      refine congrArg (p :: ·) (congrArg (dedupSeen (p.id :: s) ps ++ ·)
        (dedupSeen_congr ?_ l₂))
      intro x
      simp only [List.mem_append, List.mem_cons]
      tauto

theorem mem_dedupSeen {p : Post} {s : List String} :
    ∀ {l : List Post}, p ∈ dedupSeen s l → p ∈ l ∧ p.id ∉ s := by
  intro l
  induction l generalizing s with
  | nil => intro h; simp [dedupSeen] at h
  | cons q qs ih =>
    intro h
    simp only [dedupSeen] at h
    by_cases hq : q.id ∈ s
    · rw [if_pos hq] at h
      obtain ⟨h1, h2⟩ := ih h
      exact ⟨List.mem_cons_of_mem q h1, h2⟩
    · rw [if_neg hq] at h
      rcases List.mem_cons.mp h with h | h
      · subst h
        exact ⟨List.mem_cons_self p qs, hq⟩
      · obtain ⟨h1, h2⟩ := ih h
        refine ⟨List.mem_cons_of_mem q h1, fun hc => h2 ?_⟩
        exact List.mem_cons_of_mem q.id hc

theorem dedupSeen_nodup_ids (s : List String) :
    ∀ l : List Post, ((dedupSeen s l).map Post.id).Nodup := by
  intro l
  induction l generalizing s with
  | nil => simp [dedupSeen]
  | cons p ps ih =>
    simp only [dedupSeen]
    by_cases hp : p.id ∈ s
    · rw [if_pos hp]; exact ih s
    · rw [if_neg hp]
      simp only [List.map_cons, List.nodup_cons]
      refine ⟨?_, ih (p.id :: s)⟩
      intro hc
      obtain ⟨q, hq, hqid⟩ := List.mem_map.mp hc
      have := (mem_dedupSeen hq).2
      exact this (hqid ▸ List.mem_cons_self p.id s)

theorem dedupSeen_eq_filter {l : List Post}
    (hnd : (l.map Post.id).Nodup) (s : List String) :
    dedupSeen s l = l.filter (fun p => decide (p.id ∉ s)) := by
  induction l generalizing s with
  | nil => rfl
  | cons p ps ih =>
    simp only [List.map_cons, List.nodup_cons] at hnd
    obtain ⟨hp, hps⟩ := hnd
    simp only [dedupSeen, List.filter_cons]
    by_cases hmem : p.id ∈ s
    · have hb : ¬(decide (p.id ∉ s) = true) := by simp [hmem]
      rw [if_pos hmem, if_neg hb]
      exact ih hps s
    · have hb : decide (p.id ∉ s) = true := by simp [hmem]
      rw [if_neg hmem, if_pos hb, ih hps (p.id :: s)]
      refine congrArg (p :: ·) (List.filter_congr ?_)
      intro q hq
      have hqp : q.id ≠ p.id := by
        intro hc
        exact hp (hc ▸ List.mem_map_of_mem Post.id hq)
      simp only [decide_eq_decide, List.mem_cons]
      tauto

theorem dedupSeen_filter_id {x : String} {s : List String} (hx : x ∉ s) :
    ∀ l : List Post,
      (dedupSeen s l).filter (fun p => decide (p.id = x)) =
        (l.find? (fun p => decide (p.id = x))).toList := by
  intro l
  induction l generalizing s with
  | nil => simp [dedupSeen]
  | cons p ps ih =>
    simp only [dedupSeen]
    by_cases hp : p.id ∈ s
    · rw [if_pos hp]
      have hpx : ¬(p.id = x) := fun hc => hx (hc ▸ hp)
      rw [ih hx, List.find?_cons_of_neg _ (by simpa using hpx)]
    · rw [if_neg hp]
      by_cases hpx : p.id = x
      · rw [List.filter_cons_of_pos (by simpa using hpx),
          List.find?_cons_of_pos _ (by simpa using hpx)]
        have : (dedupSeen (p.id :: s) ps).filter (fun q => decide (q.id = x)) = [] := by
          rw [List.filter_eq_nil_iff]
          intro q hq
          have := (mem_dedupSeen hq).2
          simp only [decide_eq_true_eq]
          intro hc
          exact this (by rw [hc, ← hpx]; exact List.mem_cons_self p.id s)
        simp [this]
      · rw [List.filter_cons_of_neg (by simpa using hpx),
          List.find?_cons_of_neg _ (by simpa using hpx)]
        refine ih ?_
        intro hmem
        rcases List.mem_cons.mp hmem with h | h
        · exact hpx h.symm
        · exact hx h

/-- C2: for any two item lists A and B that each contain an entry with the
same id, `merge(A, B)` (concatenate A before B, dedup by id first-seen, sort
by `created_utc` descending) contains exactly one entry for that id, and that
entry is A's (existing) version: the filtered result is the one-element list
holding A's first entry with that id. -/
theorem mergePosts_existing_wins (A B : List Post) (x : String) (a b : Post)
    (hA : A.find? (fun p => decide (p.id = x)) = some a)
    (_hB : B.find? (fun p => decide (p.id = x)) = some b) :
    (mergePosts A B).filter (fun p => decide (p.id = x)) = [a] := by
  have hAB : (A ++ B).find? (fun p => decide (p.id = x)) = some a := by
    rw [List.find?_append, hA, Option.or]
  have hD : (removeDuplicatePosts (A ++ B)).filter (fun p => decide (p.id = x)) = [a] := by
    rw [removeDuplicatePosts, dedupSeen_filter_id (List.not_mem_nil x), hAB]
    rfl
  have hperm : List.Perm ((mergePosts A B).filter (fun p => decide (p.id = x))) [a] := by
    rw [← hD]
    exact List.Perm.filter _
      (List.mergeSort_perm (removeDuplicatePosts (A ++ B)) leNewest)
  exact hperm.eq_singleton

/-- Witness for C2 at a concrete input: A and B share the id "x", and the
merged list keeps exactly A's version of it. -/
theorem mergePosts_existing_wins_witness :
    [Post.mk "x" "ta" "ua" "ra" 5 1 0, Post.mk "y" "t" "u" "r" 7 2 0].find?
        (fun p => decide (p.id = "x")) = some (Post.mk "x" "ta" "ua" "ra" 5 1 0) ∧
      [Post.mk "x" "tb" "ub" "rb" 9 3 0].find?
        (fun p => decide (p.id = "x")) = some (Post.mk "x" "tb" "ub" "rb" 9 3 0) ∧
      (mergePosts [Post.mk "x" "ta" "ua" "ra" 5 1 0, Post.mk "y" "t" "u" "r" 7 2 0]
          [Post.mk "x" "tb" "ub" "rb" 9 3 0]).filter (fun p => decide (p.id = "x")) =
        [Post.mk "x" "ta" "ua" "ra" 5 1 0] :=
  ⟨by decide, by decide,
    mergePosts_existing_wins
      [Post.mk "x" "ta" "ua" "ra" 5 1 0, Post.mk "y" "t" "u" "r" 7 2 0]
      [Post.mk "x" "tb" "ub" "rb" 9 3 0] "x"
      (Post.mk "x" "ta" "ua" "ra" 5 1 0) (Post.mk "x" "tb" "ub" "rb" 9 3 0)
      (by decide) (by decide)⟩

theorem leNewest_refl (a : Post) : leNewest a a = true := by
  simp [leNewest]

theorem sorted_tie_eq :
    ∀ s₁ s₂ : List Post, List.Perm s₁ s₂ →
      List.Pairwise (fun a b => leNewest a b = true) s₁ →
      List.Pairwise (fun a b => leNewest a b = true) s₂ →
      (∀ x, s₁.filter (tieNewest x) = s₂.filter (tieNewest x)) →
      s₁ = s₂ := by
  intro s₁
  induction s₁ with
  | nil =>
    intro s₂ hp _ _ _
    exact (hp.symm.eq_nil).symm
  | cons a t₁ ih =>
    intro s₂ hp h₁ h₂ hf
    cases s₂ with
    | nil => exact absurd hp.eq_nil (by simp)
    | cons b t₂ =>
      have hb1 : leNewest a b = true := by
        have hbmem : b ∈ a :: t₁ := hp.mem_iff.mpr (List.mem_cons_self b t₂)
        rcases List.mem_cons.mp hbmem with h | h
        · exact h ▸ leNewest_refl a
        · exact List.rel_of_pairwise_cons h₁ h
      have hb2 : leNewest b a = true := by
        have hamem : a ∈ b :: t₂ := hp.mem_iff.mp (List.mem_cons_self a t₁)
        rcases List.mem_cons.mp hamem with h | h
        · exact h ▸ leNewest_refl b
        · exact List.rel_of_pairwise_cons h₂ h
      have hfa := hf a
      rw [List.filter_cons_of_pos (by simp [tieNewest, leNewest_refl]),
        List.filter_cons_of_pos (by simp [tieNewest, hb1, hb2])] at hfa
      obtain ⟨hab, htail⟩ := List.cons.injEq a _ b _ ▸ hfa
      subst hab
      refine congrArg (a :: ·) (ih t₂ hp.cons_inv h₁.of_cons h₂.of_cons ?_)
      intro x
      have hfx := hf x
      by_cases hxa : tieNewest x a = true
      · rw [List.filter_cons_of_pos hxa, List.filter_cons_of_pos hxa] at hfx
        exact (List.cons.injEq _ _ _ _ ▸ hfx).2
      · rwa [List.filter_cons_of_neg (by simpa using hxa),
          List.filter_cons_of_neg (by simpa using hxa)] at hfx

theorem mergeSort_filter_tie (l : List Post) (x : Post) :
    (l.mergeSort leNewest).filter (tieNewest x) = l.filter (tieNewest x) := by
  have hpw : List.Pairwise (fun a b => leNewest a b = true) (l.filter (tieNewest x)) := by
    apply List.pairwise_of_forall_mem_list
    intro a ha b hb
    have ha' := List.of_mem_filter ha
    have hb' := List.of_mem_filter hb
    simp only [tieNewest, Bool.and_eq_true] at ha' hb'
    exact leNewest_trans a x b ha'.2 hb'.1
  have hsub : List.Sublist (l.filter (tieNewest x)) (l.mergeSort leNewest) :=
    List.sublist_mergeSort leNewest_trans leNewest_total hpw (List.filter_sublist l)
  have hself : (l.filter (tieNewest x)).filter (tieNewest x) = l.filter (tieNewest x) :=
    List.filter_eq_self.mpr (fun a ha => List.of_mem_filter ha)
  have hsub2 : List.Sublist (l.filter (tieNewest x))
      ((l.mergeSort leNewest).filter (tieNewest x)) :=
    hself ▸ hsub.filter (tieNewest x)
  have hlen : ((l.mergeSort leNewest).filter (tieNewest x)).length =
      (l.filter (tieNewest x)).length :=
    (List.Perm.filter (tieNewest x) (List.mergeSort_perm l leNewest)).length_eq
  exact (hsub2.eq_of_length hlen.symm).symm

theorem mergeSort_congr_of_tie {A D : List Post} (hp : List.Perm A D)
    (hf : ∀ x, A.filter (tieNewest x) = D.filter (tieNewest x)) :
    A.mergeSort leNewest = D.mergeSort leNewest :=
  sorted_tie_eq _ _
    ((List.mergeSort_perm A leNewest).trans
      (hp.trans (List.mergeSort_perm D leNewest).symm))
    (List.sorted_mergeSort leNewest_trans leNewest_total A)
    (List.sorted_mergeSort leNewest_trans leNewest_total D)
    (fun x => by rw [mergeSort_filter_tie, mergeSort_filter_tie]; exact hf x)

/-- C8: merging is idempotent: `merge(X, merge(X, Y)) = merge(X, Y)`, where
merge concatenates, dedups by id first-seen, and sorts by `created_utc`
descending with a stable sort. -/
theorem mergePosts_idem (X Y : List Post) :
    mergePosts X (mergePosts X Y) = mergePosts X Y := by
  have h1 : removeDuplicatePosts (X ++ Y) =
      dedupSeen [] X ++ dedupSeen (X.map Post.id) Y := by
    rw [removeDuplicatePosts, dedupSeen_append, List.append_nil]
  set dX := dedupSeen [] X with hdX
  set Yf := dedupSeen (X.map Post.id) Y with hYf
  set M := (removeDuplicatePosts (X ++ Y)).mergeSort leNewest with hM
  set Pb : Post → Bool := fun p => decide (p.id ∉ X.map Post.id) with hPb
  have hMperm : List.Perm M (removeDuplicatePosts (X ++ Y)) :=
    List.mergeSort_perm _ leNewest
  have hMnodup : (M.map Post.id).Nodup := by
    refine ((hMperm.map Post.id).nodup_iff).mpr ?_
    exact dedupSeen_nodup_ids [] (X ++ Y)
  have h3 : removeDuplicatePosts (X ++ M) = dX ++ M.filter Pb := by
    rw [removeDuplicatePosts, dedupSeen_append, List.append_nil,
      dedupSeen_eq_filter hMnodup]
  have h4 : ∀ p ∈ dX, p.id ∈ X.map Post.id := by
    intro p hpmem
    exact List.mem_map_of_mem Post.id (mem_dedupSeen hpmem).1
  have h5 : ∀ p ∈ Yf, p.id ∉ X.map Post.id := by
    intro p hpmem
    exact (mem_dedupSeen hpmem).2
  have hdXnil : dX.filter Pb = [] := by
    rw [List.filter_eq_nil_iff]
    intro p hpmem
    simp only [hPb, decide_eq_true_eq, Decidable.not_not]
    exact h4 p hpmem
  have hYfself : Yf.filter Pb = Yf := by
    rw [List.filter_eq_self]
    intro p hpmem
    simp only [hPb, decide_eq_true_eq]
    exact h5 p hpmem
  have h6 : List.Perm (M.filter Pb) Yf := by
    have := List.Perm.filter Pb hMperm
    rwa [h1, List.filter_append, hdXnil, hYfself, List.nil_append] at this
  have h7 : List.Perm (dX ++ M.filter Pb) (dX ++ Yf) := h6.append_left dX
  have h8 : ∀ x, (dX ++ M.filter Pb).filter (tieNewest x) =
      (dX ++ Yf).filter (tieNewest x) := by
    intro x
    rw [List.filter_append, List.filter_append]
    refine congrArg (dX.filter (tieNewest x) ++ ·) ?_
    have hcomm : (M.filter Pb).filter (tieNewest x) = (M.filter (tieNewest x)).filter Pb := by
      rw [List.filter_filter, List.filter_filter]
      exact List.filter_congr (fun a _ => Bool.and_comm (tieNewest x a) (Pb a))
    rw [hcomm, hM, mergeSort_filter_tie, h1, List.filter_append, List.filter_append]
    have hnil : (dX.filter (tieNewest x)).filter Pb = [] := by
      rw [List.filter_eq_nil_iff]
      intro p hpmem
      simp only [hPb, decide_eq_true_eq, Decidable.not_not]
      exact h4 p (List.mem_of_mem_filter hpmem)
    have hself : (Yf.filter (tieNewest x)).filter Pb = Yf.filter (tieNewest x) := by
      rw [List.filter_eq_self]
      intro p hpmem
      simp only [hPb, decide_eq_true_eq]
      exact h5 p (List.mem_of_mem_filter hpmem)
    rw [hnil, hself, List.nil_append]
  calc mergePosts X (mergePosts X Y)
      = (removeDuplicatePosts (X ++ M)).mergeSort leNewest := rfl
    _ = (dX ++ M.filter Pb).mergeSort leNewest := by rw [h3]
    _ = (dX ++ Yf).mergeSort leNewest := mergeSort_congr_of_tie h7 h8
    _ = (removeDuplicatePosts (X ++ Y)).mergeSort leNewest := by rw [h1]
    _ = mergePosts X Y := rfl

theorem mem_removeIds_not_bookmarked {s : CacheState} {i : String}
    (hmem : i ∈ (((evictionEligible s).mergeSort leOldest).take
      ((((evictionEligible s).mergeSort leOldest).length + 4) / 5)).map Post.id) :
    i ∉ s.bookmarkedPosts.map Post.id := by
  obtain ⟨q, hq, hqi⟩ := List.mem_map.mp hmem
  have hq1 : q ∈ (evictionEligible s).mergeSort leOldest :=
    List.take_subset _ _ hq
  have hq2 : q ∈ evictionEligible s :=
    (List.mergeSort_perm (evictionEligible s) leOldest).mem_iff.mp hq1
  have := List.of_mem_filter hq2
  simpa [hqi] using this

/-- C1: no post whose id is present in the bookmarked (pinned) collection is
removed from the feed or popular collections by an eviction run, regardless
of the storage-usage percentage, and the bookmarked collection itself is
unchanged. -/
theorem cleanupOldPosts_pin_safety (s : CacheState) (u : ℚ) :
    (∀ p ∈ s.cachedPosts, p.id ∈ s.bookmarkedPosts.map Post.id →
        p ∈ (cleanupOldPosts s u).cachedPosts) ∧
      (∀ p ∈ s.popularPosts, p.id ∈ s.bookmarkedPosts.map Post.id →
        p ∈ (cleanupOldPosts s u).popularPosts) ∧
      (cleanupOldPosts s u).bookmarkedPosts = s.bookmarkedPosts := by
  by_cases hu : u < 80
  · simp only [cleanupOldPosts, if_pos hu]
    exact ⟨fun p hp _ => hp, fun p hp _ => hp, trivial⟩
  · unfold cleanupOldPosts
    rw [if_neg hu]
    refine ⟨?_, ?_, rfl⟩
    · intro p hp hbk
      refine List.mem_filter.mpr ⟨hp, ?_⟩
      simp only [decide_eq_true_eq]
      intro hrm
      exact mem_removeIds_not_bookmarked hrm hbk
    · intro p hp hbk
      refine List.mem_filter.mpr ⟨hp, ?_⟩
      simp only [decide_eq_true_eq]
      intro hrm
      exact mem_removeIds_not_bookmarked hrm hbk

/-- Witness for C1 at a concrete input: a bookmarked post survives an
eviction run at 95 percent usage. -/
theorem cleanupOldPosts_pin_safety_witness :
    mkPost "a" 1 ∈
        (CacheState.mk [mkPost "a" 1, mkPost "b" 2, mkPost "c" 3] []
          [mkPost "a" 1]).cachedPosts ∧
      (mkPost "a" 1).id ∈
        ((CacheState.mk [mkPost "a" 1, mkPost "b" 2, mkPost "c" 3] []
          [mkPost "a" 1]).bookmarkedPosts.map Post.id) ∧
      mkPost "a" 1 ∈
        (cleanupOldPosts
          (CacheState.mk [mkPost "a" 1, mkPost "b" 2, mkPost "c" 3] []
            [mkPost "a" 1]) 95).cachedPosts :=
  ⟨by decide, by decide,
    (cleanupOldPosts_pin_safety
        (CacheState.mk [mkPost "a" 1, mkPost "b" 2, mkPost "c" 3] []
          [mkPost "a" 1]) 95).1
      (mkPost "a" 1) (by decide) (by decide)⟩

theorem length_filter_not_mem_add (l : List Post) (R : List String) :
    (l.filter (fun p => decide (p.id ∉ R))).length +
      (l.filter (fun p => decide (p.id ∈ R))).length = l.length := by
  induction l with
  | nil => rfl
  | cons p ps ih =>
    by_cases hp : p.id ∈ R
    · rw [List.filter_cons_of_neg (by simpa using hp),
        List.filter_cons_of_pos (by simpa using hp)]
      simp only [List.length_cons]
      omega
    · rw [List.filter_cons_of_pos (by simpa using hp),
        List.filter_cons_of_neg (by simpa using hp)]
      simp only [List.length_cons]
      omega

theorem length_filter_mem_strings :
    ∀ (S R : List String), S.Nodup → R.Nodup → (∀ r ∈ R, r ∈ S) →
      (S.filter (fun i => decide (i ∈ R))).length = R.length := by
  intro S
  induction S with
  | nil =>
    intro R _ _ hsub
    have : R = [] := List.eq_nil_iff_forall_not_mem.mpr
      (fun r hr => List.not_mem_nil r (hsub r hr))
    simp [this]
  | cons a S' ih =>
    intro R hS hR hsub
    rw [List.nodup_cons] at hS
    obtain ⟨haS, hS'⟩ := hS
    by_cases ha : a ∈ R
    · rw [List.filter_cons_of_pos (by simpa using ha), List.length_cons]
      have herase : (S'.filter (fun i => decide (i ∈ R))).length =
          (S'.filter (fun i => decide (i ∈ R.erase a))).length := by
        refine congrArg List.length (List.filter_congr ?_)
        intro i hi
        have hia : i ≠ a := fun hc => haS (hc ▸ hi)
        simp only [decide_eq_decide]
        rw [hR.mem_erase_iff]
        tauto
      rw [herase, ih (R.erase a) hS' (hR.erase a) ?_]
      · rw [List.length_erase_of_mem ha]
        have : 1 ≤ R.length := List.length_pos.mpr (List.ne_nil_of_mem ha)
        omega
      · intro r hr
        have hrR := List.mem_of_mem_erase hr
        have hra : r ≠ a := (List.Nodup.mem_erase_iff hR).mp hr |>.1
        rcases List.mem_cons.mp (hsub r hrR) with h | h
        · exact absurd h hra
        · exact h
    · rw [List.filter_cons_of_neg (by simpa using ha)]
      refine ih R hS' hR ?_
      intro r hr
      rcases List.mem_cons.mp (hsub r hr) with h | h
      · exact absurd (h ▸ hr) ha
      · exact h

theorem map_id_filter_mem (l : List Post) (R : List String) :
    (l.filter (fun p => decide (p.id ∈ R))).map Post.id =
      (l.map Post.id).filter (fun i => decide (i ∈ R)) := by
  induction l with
  | nil => rfl
  | cons p ps ih =>
    by_cases hp : p.id ∈ R
    · rw [List.filter_cons_of_pos (by simpa using hp), List.map_cons,
        List.map_cons, List.filter_cons_of_pos (by simpa using hp), ih]
    · rw [List.filter_cons_of_neg (by simpa using hp), List.map_cons,
        List.filter_cons_of_neg (by simpa using hp), ih]

theorem length_filter_mem_posts {l : List Post} {R : List String}
    (hl : (l.map Post.id).Nodup) (hR : R.Nodup)
    (hsub : ∀ r ∈ R, r ∈ l.map Post.id) :
    (l.filter (fun p => decide (p.id ∈ R))).length = R.length := by
  have := congrArg List.length (map_id_filter_mem l R)
  rw [List.length_map] at this
  rw [this]
  exact length_filter_mem_strings (l.map Post.id) R hl hR hsub

/-- C3 counterexample: with an id shared between the feed and popular
collections, `cleanupOldPosts` sizes the eviction from the concatenation
(7 entries, so it takes 2 slice positions, both occupied by "a") instead of
the id-union (6 ids, which the claim says forces the removal of the 2 oldest
ids "a" and "b").  At 85 percent usage only the single id "a" disappears and
the second-oldest eligible post "b" survives, so the claim is false. -/
theorem cleanupOldPosts_union_cex :
    ((overlapState.cachedPosts ++ overlapState.popularPosts).map Post.id).dedup.length = 6 ∧
      overlapState.bookmarkedPosts = [] ∧
      mkPost "b" 2 ∈ (cleanupOldPosts overlapState 85).cachedPosts ∧
      (((cleanupOldPosts overlapState 85).cachedPosts ++
          (cleanupOldPosts overlapState 85).popularPosts).map Post.id).dedup.length = 5 := by
  have hc : cleanupOldPosts overlapState 85 =
      CacheState.mk [mkPost "b" 2, mkPost "c" 3, mkPost "d" 4, mkPost "e" 5,
        mkPost "f" 6] [] [] := by
    simp [cleanupOldPosts, evictionEligible, overlapState, mkPost, leOldest,
      List.mergeSort, List.splitInTwo, List.merge]
    norm_num
  rw [hc]
  decide

/-- C3 (amended): when usage is below 80 percent eviction changes nothing;
when usage is at least 80 percent and no id occurs twice across the feed and
popular collections, eviction removes exactly `ceil(0.2 * N)` posts — the
oldest eligible ones by `created_utc` — where `N` is the number of
eviction-eligible posts (the union of the two collections minus pinned ids),
and each selected id is dropped from both collections wherever it matches.
The amendment is the id-uniqueness hypothesis: the source computes `N` and
the removal set from the concatenation of the two collections, which matches
the claim's id-union only when the collections share no id. -/
theorem cleanupOldPosts_eviction_sizing (s : CacheState) (u : ℚ) :
    (u < 80 → cleanupOldPosts s u = s) ∧
      (80 ≤ u → (((s.cachedPosts ++ s.popularPosts).map Post.id).Nodup →
        ∃ removed : List Post,
          removed.length = ((evictionEligible s).length + 4) / 5 ∧
          (∀ p ∈ removed, p ∈ evictionEligible s) ∧
          (cleanupOldPosts s u).cachedPosts =
            s.cachedPosts.filter (fun p => decide (p.id ∉ removed.map Post.id)) ∧
          (cleanupOldPosts s u).popularPosts =
            s.popularPosts.filter (fun p => decide (p.id ∉ removed.map Post.id)) ∧
          (∀ p ∈ removed, ∀ q ∈ evictionEligible s,
            q.id ∉ removed.map Post.id → p.created_utc ≤ q.created_utc) ∧
          (cleanupOldPosts s u).cachedPosts.length +
              (cleanupOldPosts s u).popularPosts.length =
            s.cachedPosts.length + s.popularPosts.length -
              ((evictionEligible s).length + 4) / 5)) := by
  constructor
  · intro hu
    simp [cleanupOldPosts, hu]
  · intro h80 hnd
    have hnot : ¬(u < 80) := not_lt.mpr h80
    set elig := evictionEligible s with helig
    set sorted := elig.mergeSort leOldest with hsorted
    have hsortperm : List.Perm sorted elig := List.mergeSort_perm elig leOldest
    have hlensort : sorted.length = elig.length := hsortperm.length_eq
    set k := (elig.length + 4) / 5 with hk
    have hkN : k ≤ sorted.length := by rw [hlensort]; omega
    refine ⟨sorted.take k, ?_, ?_, ?_, ?_, ?_, ?_⟩
    · rw [List.length_take]
      omega
    · intro p hp
      exact hsortperm.mem_iff.mp (List.take_subset k sorted hp)
    · unfold cleanupOldPosts
      rw [if_neg hnot]
      simp only [← helig, ← hsorted, hlensort, ← hk]
    · unfold cleanupOldPosts
      rw [if_neg hnot]
      simp only [← helig, ← hsorted, hlensort, ← hk]
    · intro p hp q hq hqid
      have hpw : List.Pairwise (fun a b => leOldest a b = true) sorted :=
        List.sorted_mergeSort leOldest_trans leOldest_total elig
      have hsplit : sorted = sorted.take k ++ sorted.drop k :=
        (List.take_append_drop k sorted).symm
      have hqs : q ∈ sorted := hsortperm.mem_iff.mpr hq
      have hqdrop : q ∈ sorted.drop k := by
        rw [hsplit] at hqs
        rcases List.mem_append.mp hqs with h | h
        · exact absurd (List.mem_map_of_mem Post.id h) hqid
        · exact h
      have := (List.pairwise_append.mp (hsplit ▸ hpw)).2.2 p hp q hqdrop
      simpa [leOldest] using this
    · unfold cleanupOldPosts
      rw [if_neg hnot]
      simp only [← helig, ← hsorted, hlensort, ← hk]
      set R := (sorted.take k).map Post.id with hR
      have hcachelen := length_filter_not_mem_add s.cachedPosts R
      have hpoplen := length_filter_not_mem_add s.popularPosts R
      have hRnodup : R.Nodup := by
        have h1 : (elig.map Post.id).Nodup := by
          have hsub : List.Sublist elig (s.cachedPosts ++ s.popularPosts) :=
            List.filter_sublist _
          exact (hsub.map Post.id).nodup hnd
        have h2 : (sorted.map Post.id).Nodup :=
          ((hsortperm.map Post.id).nodup_iff).mpr h1
        rw [hR, List.map_take]
        exact h2.sublist (List.take_sublist k (sorted.map Post.id))
      have hRsub : ∀ r ∈ R, r ∈ (s.cachedPosts ++ s.popularPosts).map Post.id := by
        intro r hr
        obtain ⟨p, hp, hpi⟩ := List.mem_map.mp hr
        have hpe : p ∈ elig := hsortperm.mem_iff.mp (List.take_subset k sorted hp)
        have : p ∈ s.cachedPosts ++ s.popularPosts := List.mem_of_mem_filter hpe
        exact hpi ▸ List.mem_map_of_mem Post.id this
      have hcount : ((s.cachedPosts ++ s.popularPosts).filter
          (fun p => decide (p.id ∈ R))).length = R.length :=
        length_filter_mem_posts hnd hRnodup hRsub
      have hRlen : R.length = k := by
        rw [hR, List.length_map, List.length_take]
        omega
      rw [List.filter_append, List.length_append] at hcount
      omega

/-- Witness for C3 at a concrete input with disjoint ids: four posts, one
bookmarked, usage 90 percent; the theorem yields the removal of exactly
`ceil(0.2 * 3) = 1` oldest eligible post. -/
theorem cleanupOldPosts_eviction_sizing_witness :
    (80 : ℚ) ≤ 90 ∧
      ((((CacheState.mk [mkPost "a" 1, mkPost "b" 2, mkPost "c" 3]
          [mkPost "d" 4] [mkPost "a" 1]).cachedPosts ++
        (CacheState.mk [mkPost "a" 1, mkPost "b" 2, mkPost "c" 3]
          [mkPost "d" 4] [mkPost "a" 1]).popularPosts).map Post.id).Nodup) ∧
      (∃ removed : List Post,
        removed.length =
          ((evictionEligible (CacheState.mk [mkPost "a" 1, mkPost "b" 2, mkPost "c" 3]
            [mkPost "d" 4] [mkPost "a" 1])).length + 4) / 5 ∧
        (∀ p ∈ removed, p ∈ evictionEligible (CacheState.mk
          [mkPost "a" 1, mkPost "b" 2, mkPost "c" 3] [mkPost "d" 4] [mkPost "a" 1])) ∧
        (cleanupOldPosts (CacheState.mk [mkPost "a" 1, mkPost "b" 2, mkPost "c" 3]
            [mkPost "d" 4] [mkPost "a" 1]) 90).cachedPosts =
          (CacheState.mk [mkPost "a" 1, mkPost "b" 2, mkPost "c" 3]
            [mkPost "d" 4] [mkPost "a" 1]).cachedPosts.filter
            (fun p => decide (p.id ∉ removed.map Post.id)) ∧
        (cleanupOldPosts (CacheState.mk [mkPost "a" 1, mkPost "b" 2, mkPost "c" 3]
            [mkPost "d" 4] [mkPost "a" 1]) 90).popularPosts =
          (CacheState.mk [mkPost "a" 1, mkPost "b" 2, mkPost "c" 3]
            [mkPost "d" 4] [mkPost "a" 1]).popularPosts.filter
            (fun p => decide (p.id ∉ removed.map Post.id)) ∧
        (∀ p ∈ removed, ∀ q ∈ evictionEligible (CacheState.mk
            [mkPost "a" 1, mkPost "b" 2, mkPost "c" 3] [mkPost "d" 4] [mkPost "a" 1]),
          q.id ∉ removed.map Post.id → p.created_utc ≤ q.created_utc) ∧
        (cleanupOldPosts (CacheState.mk [mkPost "a" 1, mkPost "b" 2, mkPost "c" 3]
              [mkPost "d" 4] [mkPost "a" 1]) 90).cachedPosts.length +
            (cleanupOldPosts (CacheState.mk [mkPost "a" 1, mkPost "b" 2, mkPost "c" 3]
              [mkPost "d" 4] [mkPost "a" 1]) 90).popularPosts.length =
          (CacheState.mk [mkPost "a" 1, mkPost "b" 2, mkPost "c" 3]
              [mkPost "d" 4] [mkPost "a" 1]).cachedPosts.length +
            (CacheState.mk [mkPost "a" 1, mkPost "b" 2, mkPost "c" 3]
              [mkPost "d" 4] [mkPost "a" 1]).popularPosts.length -
            ((evictionEligible (CacheState.mk [mkPost "a" 1, mkPost "b" 2, mkPost "c" 3]
              [mkPost "d" 4] [mkPost "a" 1])).length + 4) / 5) :=
  ⟨by decide, by decide,
    (cleanupOldPosts_eviction_sizing
        (CacheState.mk [mkPost "a" 1, mkPost "b" 2, mkPost "c" 3]
          [mkPost "d" 4] [mkPost "a" 1]) 90).2 (by decide) (by decide)⟩

/-- C9: applying with an empty staging buffer is a no-op returning 0: the
feed and popular collections (indeed the whole cache state) are unchanged,
the buffer is left empty, and the merged count is 0. -/
theorem applyPendingUpdates_noop (usage : CacheState → ℚ) (s : CacheState)
    (pu : PendingUpdates) (hmy : pu.myPosts = []) (hpop : pu.popularPosts = []) :
    applyPendingUpdates usage s pu = (s, emptyPendingUpdates) ∧
      applyMergedCount pu = 0 := by
  constructor
  · simp [applyPendingUpdates, hmy, hpop]
  · simp [applyMergedCount, hmy, hpop]

/-- Witness for C9 at a concrete input: an empty buffer with stale counts is
cleared and nothing else changes. -/
theorem applyPendingUpdates_noop_witness :
    (PendingUpdates.mk [] 0 [] 0).myPosts = [] ∧
      (PendingUpdates.mk [] 0 [] 0).popularPosts = [] ∧
      (applyPendingUpdates (fun _ => 95)
          (CacheState.mk [mkPost "a" 1] [mkPost "b" 2] [])
          (PendingUpdates.mk [] 0 [] 0) =
        (CacheState.mk [mkPost "a" 1] [mkPost "b" 2] [], emptyPendingUpdates) ∧
        applyMergedCount (PendingUpdates.mk [] 0 [] 0) = 0) :=
  ⟨rfl, rfl,
    applyPendingUpdates_noop (fun _ => 95)
      (CacheState.mk [mkPost "a" 1] [mkPost "b" 2] [])
      (PendingUpdates.mk [] 0 [] 0) rfl rfl⟩

theorem AdmittedTrace.lower_bound {s : RateLimitState} {ts : List Nat}
    (h : AdmittedTrace s ts) : ∀ u ∈ ts, s.lastRequestTime + 6000 ≤ u := by
  induction h with
  | nil => intro u hu; exact absurd hu (List.not_mem_nil u)
  | cons s t t' rh sh ts hadm ht hrest ih =>
    intro u hu
    have hs1last : (canMakeRequest t s).1.lastRequestTime = s.lastRequestTime := by
      unfold canMakeRequest
      by_cases hr : s.resetTime ≤ t <;> simp [hr]
    have hgap : s.lastRequestTime + 6000 ≤ t := by
      have := hadm
      unfold canMakeRequest at this
      rw [Bool.and_eq_true, decide_eq_true_eq, decide_eq_true_eq] at this
      have h6 := this.1
      by_cases hr : s.resetTime ≤ t
      · simp only [if_pos hr] at h6
        omega
      · simp only [if_neg hr] at h6
        omega
    rcases List.mem_cons.mp hu with hu | hu
    · omega
    · have := ih u hu
      have hlast : (updateRateLimitFromHeaders rh sh
          (markDeparture t' (canMakeRequest t s).1)).lastRequestTime = t' := rfl
      rw [hlast] at this
      omega

theorem AdmittedTrace.pairwise_gap {s : RateLimitState} {ts : List Nat}
    (h : AdmittedTrace s ts) : ts.Pairwise (fun a b => a + 6000 ≤ b) := by
  induction h with
  | nil => exact List.Pairwise.nil
  | cons s t t' rh sh ts hadm ht hrest ih =>
    refine List.pairwise_cons.mpr ⟨?_, ih⟩
    intro u hu
    have := hrest.lower_bound u hu
    have hlast : (updateRateLimitFromHeaders rh sh
        (markDeparture t' (canMakeRequest t s).1)).lastRequestTime = t' := rfl
    rw [hlast] at this
    omega

theorem gap_window_count :
    ∀ (l : List Nat) (lo hi : Nat), l.Pairwise (fun a b => a + 6000 ≤ b) →
      (∀ u ∈ l, lo ≤ u) → (∀ u ∈ l, u < hi) →
      6000 * l.length ≤ hi + 5999 - lo := by
  intro l
  induction l with
  | nil => intro lo hi _ _ _; simp
  | cons x t ih =>
    intro lo hi hpw hlo hhi
    have hx1 : lo ≤ x := hlo x (List.mem_cons_self x t)
    have hx2 : x < hi := hhi x (List.mem_cons_self x t)
    obtain ⟨hhead, htail⟩ := List.pairwise_cons.mp hpw
    have ht := ih (x + 6000) hi htail
      (fun u hu => hhead u hu)
      (fun u hu => hhi u (List.mem_cons_of_mem x hu))
    simp only [List.length_cons]
    omega

/-- C7: across any rolling window of length one minute, the departure
bookkeeping (`markDeparture`) runs at most 10 times, for every serial
sequence of fetches admitted by the rate limiter — a consequence of the
6-second minimum interval the admission check enforces between requests. -/
theorem rateLimiter_window_cap (s : RateLimitState) (ts : List Nat) (T : Nat)
    (h : AdmittedTrace s ts) :
    (ts.filter (fun u => decide (T ≤ u) && decide (u < T + 60000))).length ≤ 10 := by
  have hpw : (ts.filter (fun u => decide (T ≤ u) && decide (u < T + 60000))).Pairwise
      (fun a b => a + 6000 ≤ b) :=
    h.pairwise_gap.sublist (List.filter_sublist ts)
  have hbound := gap_window_count _ T (T + 60000) hpw
    (fun u hu => by
      have := List.of_mem_filter hu
      rw [Bool.and_eq_true, decide_eq_true_eq, decide_eq_true_eq] at this
      exact this.1)
    (fun u hu => by
      have := List.of_mem_filter hu
      rw [Bool.and_eq_true, decide_eq_true_eq, decide_eq_true_eq] at this
      exact this.2)
  omega

/-- Witness for C7: a concrete two-request admitted trace; the window count
comes out at most 10. -/
theorem rateLimiter_window_cap_witness :
    AdmittedTrace (RateLimitState.mk 10 60000 0 0) [6100, 12500] ∧
      (([6100, 12500] : List Nat).filter
        (fun u => decide (0 ≤ u) && decide (u < 0 + 60000))).length ≤ 10 := by
  have htrace : AdmittedTrace (RateLimitState.mk 10 60000 0 0) [6100, 12500] := by
    refine AdmittedTrace.cons _ 6000 6100 none none _ (by decide) (by decide) ?_
    refine AdmittedTrace.cons _ 12400 12500 none none _ (by decide) (by decide) ?_
    exact AdmittedTrace.nil _
  exact ⟨htrace, rateLimiter_window_cap _ _ 0 htrace⟩

/-- C6 counterexample: on a timed-out attempt (the `fetch` promise rejects
with an abort), `fetchSubredditPostsWithTimeout` leaves the rate-limit state
completely untouched: `lastRequestTime` stays 0 instead of becoming the
attempt time 5000, the quota is not decremented and the request counter is
not incremented — the claim asserts this bookkeeping happens on every
attempt regardless of outcome.  The network-failure outcome behaves the
same way. -/
theorem fetch_timeout_no_bookkeeping_cex :
    (fetchSubredditPostsWithTimeout rl0 5000 FetchOutcome.timeoutAbort).1 = rl0 ∧
      (fetchSubredditPostsWithTimeout rl0 5000 FetchOutcome.networkError).1 = rl0 ∧
      rl0.lastRequestTime = 0 ∧ (5000 : Nat) ≠ 0 ∧
      rl0.remainingRequests = 10 ∧ rl0.requestCount = 0 := by
  decide

/-- C6 (amended): the departure bookkeeping and the header application run
exactly when a response is received — for every HTTP status, including 429
and other error statuses — and on timeout or network failure the rate-limit
state is untouched. -/
theorem fetch_bookkeeping_on_response (s : RateLimitState) (now : Nat)
    (st : Nat) (rh : Option Int) (sh : Option Nat) :
    (fetchSubredditPostsWithTimeout s now (FetchOutcome.response st rh sh)).1 =
        updateRateLimitFromHeaders rh sh (markDeparture now s) ∧
      (fetchSubredditPostsWithTimeout s now (FetchOutcome.response st rh sh)).1.lastRequestTime
        = now ∧
      (fetchSubredditPostsWithTimeout s now (FetchOutcome.response st rh sh)).1.requestCount
        = s.requestCount + 1 ∧
      (rh = none →
        (fetchSubredditPostsWithTimeout s now
          (FetchOutcome.response st rh sh)).1.remainingRequests =
          max 0 (s.remainingRequests - 1)) ∧
      (∀ q, rh = some q →
        (fetchSubredditPostsWithTimeout s now
          (FetchOutcome.response st rh sh)).1.remainingRequests = q) ∧
      (fetchSubredditPostsWithTimeout s now FetchOutcome.networkError).1 = s ∧
      (fetchSubredditPostsWithTimeout s now FetchOutcome.timeoutAbort).1 = s := by
  have h1 : (fetchSubredditPostsWithTimeout s now (FetchOutcome.response st rh sh)).1 =
      updateRateLimitFromHeaders rh sh (markDeparture now s) := by
    unfold fetchSubredditPostsWithTimeout
    by_cases h429 : st = 429
    · simp [h429]
    · by_cases hok : 200 ≤ st ∧ st < 300 <;> simp [h429, hok]
  refine ⟨h1, ?_, ?_, ?_, ?_, rfl, rfl⟩
  · rw [h1]; rfl
  · rw [h1]; rfl
  · intro hnone; rw [h1]
    simp [updateRateLimitFromHeaders, markDeparture, hnone]
  · intro q hq; rw [h1]
    simp [updateRateLimitFromHeaders, markDeparture, hq]

/-- Witness for C6 (amended) at concrete inputs: a 503 error response still
performs the bookkeeping and applies a quota header. -/
theorem fetch_bookkeeping_on_response_witness :
    (fetchSubredditPostsWithTimeout rl0 7000
        (FetchOutcome.response 503 (some 4) none)).1.lastRequestTime = 7000 ∧
      (fetchSubredditPostsWithTimeout rl0 7000
        (FetchOutcome.response 503 (some 4) none)).1.requestCount = rl0.requestCount + 1 ∧
      (fetchSubredditPostsWithTimeout rl0 7000
        (FetchOutcome.response 503 (some 4) none)).1.remainingRequests = 4 :=
  ⟨(fetch_bookkeeping_on_response rl0 7000 503 (some 4) none).2.1,
    (fetch_bookkeeping_on_response rl0 7000 503 (some 4) none).2.2.1,
    (fetch_bookkeeping_on_response rl0 7000 503 (some 4) none).2.2.2.2.1 4 rfl⟩

/-- C5 counterexample: in the evolved variant the sync queue fetches through
`fetchSubredditPostsWithTimeout`, and that client raises the terminal
rate-limit error on the very first 429 — attempt 0, with
`maxRetries = 3` not yet exhausted — performing no backoff wait and no
retry, while the claim says a 429 with `attempt < maxRetries` is always
retried after the computed backoff. -/
theorem fetch429_no_retry_cex :
    (fetchSubredditPostsWithTimeout rl0 1000
        (FetchOutcome.response 429 none none)).2 = FetchTimeoutResult.rateLimited ∧
      (0 : Nat) < 3 := by
  decide

/-- C5 (amended): the claimed behavior holds for the legacy retrying client
`fetchSubredditPosts` (`src/app.js`): every attempt `k < 3` that receives
HTTP 429 waits `min(1000 * 2 ^ k + jitter, 30000)` and retries the same
target with attempt `k + 1`, and only once the three retries are exhausted
(attempt 3 also answering 429) does it raise the terminal
rate-limit-exceeded error.  In the evolved timeout client the 429 is
terminal for the attempt and retrying is left to the sync-job layer. -/
theorem fetchSubredditPosts_backoff_retry (sub : String) (resp : Nat → Nat)
    (jit : Nat → ℚ) :
    (∀ k, k < 3 → resp k = 429 →
        fetchSubredditPosts sub resp jit k =
          (min (1000 * 2 ^ k + jit k) 30000 ::
              (fetchSubredditPosts sub resp jit (k + 1)).1,
            (fetchSubredditPosts sub resp jit (k + 1)).2)) ∧
      (resp 3 = 429 →
        fetchSubredditPosts sub resp jit 3 = ([], FetchRetryResult.rateLimitExceeded)) := by
  constructor
  · intro k hk h429
    conv_lhs => rw [fetchSubredditPosts]
    simp [h429, hk]
  · intro h429
    conv_lhs => rw [fetchSubredditPosts]
    simp [h429]

/-- Witness for C5 (amended): with every attempt answering 429 and zero
jitter, attempt 0 waits 1000 ms and retries, and attempt 3 is terminal. -/
theorem fetchSubredditPosts_backoff_retry_witness :
    (0 : Nat) < 3 ∧
      fetchSubredditPosts "test" (fun _ => 429) (fun _ => 0) 0 =
        (min (1000 * 2 ^ 0 + (0 : ℚ)) 30000 ::
            (fetchSubredditPosts "test" (fun _ => 429) (fun _ => 0) 1).1,
          (fetchSubredditPosts "test" (fun _ => 429) (fun _ => 0) 1).2) ∧
      fetchSubredditPosts "test" (fun _ => 429) (fun _ => 0) 3 =
        ([], FetchRetryResult.rateLimitExceeded) :=
  ⟨by decide,
    (fetchSubredditPosts_backoff_retry "test" (fun _ => 429) (fun _ => 0)).1 0
      (by decide) rfl,
    (fetchSubredditPosts_backoff_retry "test" (fun _ => 429) (fun _ => 0)).2 rfl⟩

/-- C4 counterexample: a fresh job whose every attempt fails is already in
the terminal `failed_max_retries` state after its third attempt — not after
a fourth as the claim's `maxRetries + 1 = 4` asserts — and the fourth pass
no longer attempts it at all (the state is unchanged). -/
theorem syncJob_terminal_after_three_cex :
    (failedAttempt^[2] (queueSyncJob "fetch_subreddit" (some "test") 0)).status ≠
        JobStatus.failedMaxRetries ∧
      (failedAttempt^[3] (queueSyncJob "fetch_subreddit" (some "test") 0)).status =
        JobStatus.failedMaxRetries ∧
      failedAttempt^[4] (queueSyncJob "fetch_subreddit" (some "test") 0) =
        failedAttempt^[3] (queueSyncJob "fetch_subreddit" (some "test") 0) := by
  decide

/-- C4 (amended): a job that always fails reaches the terminal
`failed_max_retries` state after exactly `maxRetries = 3` attempts (the
retry counter is incremented before the `retries >= 3` check), and it is
never attempted again afterwards — in particular it never retries
indefinitely. -/
theorem syncJob_termination (j : SyncJob) (h0 : j.retries = 0)
    (hs : j.status = JobStatus.pending) :
    (failedAttempt^[1] j).status = JobStatus.failed ∧
      (failedAttempt^[2] j).status = JobStatus.failed ∧
      (failedAttempt^[3] j).status = JobStatus.failedMaxRetries ∧
      (failedAttempt^[3] j).retries = 3 ∧
      ∀ n, 3 ≤ n → failedAttempt^[n] j = failedAttempt^[3] j := by
  have e1 : failedAttempt j = { j with retries := 1, status := JobStatus.failed } := by
    unfold failedAttempt eligibleJob processJob
    rw [hs]
    simp [h0]
  have e2 : failedAttempt^[2] j = { j with retries := 2, status := JobStatus.failed } := by
    show failedAttempt (failedAttempt j) = _
    rw [e1]
    unfold failedAttempt eligibleJob processJob
    simp
  have e3 : failedAttempt^[3] j =
      { j with retries := 3, status := JobStatus.failedMaxRetries } := by
    show failedAttempt (failedAttempt^[2] j) = _
    rw [e2]
    unfold failedAttempt eligibleJob processJob
    simp
  have hfix : ∀ n, failedAttempt^[n] (failedAttempt^[3] j) = failedAttempt^[3] j := by
    intro n
    induction n with
    | zero => rfl
    | succ m ih =>
      rw [Function.iterate_succ_apply]
      have : failedAttempt (failedAttempt^[3] j) = failedAttempt^[3] j := by
        rw [e3]
        unfold failedAttempt eligibleJob
        simp
      rw [this, ih]
  refine ⟨by rw [Function.iterate_one, e1], by rw [e2], by rw [e3], by rw [e3], ?_⟩
  intro n hn
  obtain ⟨m, rfl⟩ := Nat.exists_eq_add_of_le hn
  rw [Nat.add_comm, Function.iterate_add_apply, hfix]

/-- Witness for C4 (amended) at a concrete freshly-enqueued job. -/
theorem syncJob_termination_witness :
    (queueSyncJob "fetch_popular" none 7).retries = 0 ∧
      (queueSyncJob "fetch_popular" none 7).status = JobStatus.pending ∧
      ((failedAttempt^[1] (queueSyncJob "fetch_popular" none 7)).status =
          JobStatus.failed ∧
        (failedAttempt^[2] (queueSyncJob "fetch_popular" none 7)).status =
          JobStatus.failed ∧
        (failedAttempt^[3] (queueSyncJob "fetch_popular" none 7)).status =
          JobStatus.failedMaxRetries ∧
        (failedAttempt^[3] (queueSyncJob "fetch_popular" none 7)).retries = 3 ∧
        ∀ n, 3 ≤ n → failedAttempt^[n] (queueSyncJob "fetch_popular" none 7) =
          failedAttempt^[3] (queueSyncJob "fetch_popular" none 7)) :=
  ⟨rfl, rfl, syncJob_termination (queueSyncJob "fetch_popular" none 7) rfl rfl⟩

theorem drain_foldl_split (outcomes : Nat → Bool) (enq : Nat → List SyncJob) :
    ∀ (ks : List Nat) (u news : List SyncJob), (∀ k ∈ ks, k < u.length) →
      ks.foldl (fun c k => drainStep outcomes c k ++ enq k) (u ++ news) =
        ks.foldl (fun c k => drainStep outcomes c k) u ++
          (news ++ (ks.map enq).flatten) := by
  intro ks
  induction ks with
  | nil =>
    intro u news _
    simp
  | cons k ks ih =>
    intro u news hb
    have hk : k < u.length := hb k (List.mem_cons_self k ks)
    have hget : (u ++ news).getD k defaultJob = u.getD k defaultJob :=
      List.getD_append u news defaultJob k hk
    have hset : drainStep outcomes (u ++ news) k = drainStep outcomes u k ++ news := by
      unfold drainStep
      rw [hget, List.set_append, if_pos hk]
    simp only [List.foldl_cons]
    rw [hset, List.append_assoc]
    rw [ih (drainStep outcomes u k) (news ++ enq k) ?_]
    · rw [List.map_cons, List.flatten_cons, List.append_assoc]
    · intro k' hk'
      unfold drainStep
      rw [List.length_set]
      exact hb k' (List.mem_cons_of_mem k hk')

/-- C10: a drain pass processes exactly the jobs that were eligible
(pending or failed) when the pass started: the resulting queue is the
snapshot-processed original queue (purged of completed jobs) followed by
every job enqueued while the pass was running, each still exactly as it was
enqueued; in particular a job enqueued after the drain began is not
processed in that pass and is still pending in the persisted queue when the
pass ends. -/
theorem processSyncQueue_snapshot (q : List SyncJob) (outcomes : Nat → Bool)
    (enq : Nat → List SyncJob)
    (hpend : ∀ k, ∀ j ∈ enq k, j.status = JobStatus.pending) :
    processSyncQueuePass q outcomes enq =
        ((snapshotIdx q).foldl (fun c k => drainStep outcomes c k) q).filter
          (fun j => decide (j.status ≠ JobStatus.completed)) ++
          ((snapshotIdx q).map enq).flatten ∧
      ∀ j ∈ ((snapshotIdx q).map enq).flatten,
        j ∈ processSyncQueuePass q outcomes enq ∧ j.status = JobStatus.pending := by
  have hbound : ∀ k ∈ snapshotIdx q, k < q.length := by
    intro k hk
    exact List.mem_range.mp (List.mem_of_mem_filter hk)
  have hsplit := drain_foldl_split outcomes enq (snapshotIdx q) q [] hbound
  rw [List.append_nil] at hsplit
  have hjoinpend : ∀ j ∈ ((snapshotIdx q).map enq).flatten,
      j.status = JobStatus.pending := by
    intro j hj
    obtain ⟨l, hl, hjl⟩ := List.mem_flatten.mp hj
    obtain ⟨k, _, hkl⟩ := List.mem_map.mp hl
    exact hpend k j (hkl ▸ hjl)
  have hmain : processSyncQueuePass q outcomes enq =
      ((snapshotIdx q).foldl (fun c k => drainStep outcomes c k) q).filter
        (fun j => decide (j.status ≠ JobStatus.completed)) ++
        ((snapshotIdx q).map enq).flatten := by
    unfold processSyncQueuePass
    rw [hsplit, List.filter_append, List.nil_append]
    refine congrArg (_ ++ ·) (List.filter_eq_self.mpr ?_)
    intro j hj
    simp [hjoinpend j hj]
  refine ⟨hmain, ?_⟩
  intro j hj
  refine ⟨?_, hjoinpend j hj⟩
  rw [hmain]
  exact List.mem_append_right _ hj

/-- Witness for C10 at a concrete input: a queue holding one pending job is
drained successfully while a second job is enqueued mid-pass; the new job is
not processed and ends the pass still pending in the persisted queue. -/
theorem processSyncQueue_snapshot_witness :
    (∀ k, ∀ j ∈ (fun _ : Nat => [queueSyncJob "fetch_popular" none 5]) k,
        j.status = JobStatus.pending) ∧
      (processSyncQueuePass [queueSyncJob "fetch_subreddit" (some "test") 0]
          (fun _ : Nat => true) (fun _ : Nat => [queueSyncJob "fetch_popular" none 5]) =
        ((snapshotIdx [queueSyncJob "fetch_subreddit" (some "test") 0]).foldl
          (fun c k => drainStep (fun _ : Nat => true) c k)
          [queueSyncJob "fetch_subreddit" (some "test") 0]).filter
            (fun j => decide (j.status ≠ JobStatus.completed)) ++
          ((snapshotIdx [queueSyncJob "fetch_subreddit" (some "test") 0]).map
            (fun _ : Nat => [queueSyncJob "fetch_popular" none 5])).flatten ∧
        ∀ j ∈ ((snapshotIdx [queueSyncJob "fetch_subreddit" (some "test") 0]).map
            (fun _ : Nat => [queueSyncJob "fetch_popular" none 5])).flatten,
          j ∈ processSyncQueuePass [queueSyncJob "fetch_subreddit" (some "test") 0]
              (fun _ : Nat => true) (fun _ : Nat => [queueSyncJob "fetch_popular" none 5]) ∧
            j.status = JobStatus.pending) :=
  ⟨fun k j hj => by
      simp only [List.mem_singleton] at hj
      rw [hj]
      rfl,
    processSyncQueue_snapshot [queueSyncJob "fetch_subreddit" (some "test") 0]
      (fun _ : Nat => true) (fun _ : Nat => [queueSyncJob "fetch_popular" none 5])
      (fun k j hj => by
        simp only [List.mem_singleton] at hj
        rw [hj]
        rfl)⟩

end RPWA
